import Mathlib

/-!
Verification of the taxonomy tree flatten / filter / selection engine
(`src/components/Taxonomy/Taxonomy.tsx`).

The data model and the operations are shallowly embedded from the source:
  * `TaxonomyItem`        — the tree node record ({ label, path, depth, children }).
  * `flattenItem` / `flattenForest` — the `flatten` useMemo (pre-order push walk).
  * `isSubArray`          — the prefix test used for "descendant selected".
  * `isArraysEqual`       — path equality (the helper lives in `utils/utilities`,
                            outside the provided sources; modelled from the spec).
  * `setSelected`         — the toggle operation of the selection model.
  * `optionsMaxUsagesReached` — the derived `maxUsagesReached` flag.
  * `disabledFlag`        — the `disabled` computation of the `Item` renderer.
  * `filterTreeByPredicate` — the backward-scan filtered-tree reconstructor.
    JavaScript arrays with holes are modelled by `List (Option _)`;
    reading a hole and calling a method on it (a TypeError at runtime)
    is modelled by the whole computation returning `none`.
-/

inductive TaxonomyItem : Type where
  | node (label : String) (path : List String) (depth : Nat)
         (children : List TaxonomyItem) : TaxonomyItem

def TaxonomyItem.label : TaxonomyItem → String
  | .node l _ _ _ => l

def TaxonomyItem.path : TaxonomyItem → List String
  | .node _ p _ _ => p

def TaxonomyItem.depth : TaxonomyItem → Nat
  | .node _ _ d _ => d

def TaxonomyItem.children : TaxonomyItem → List TaxonomyItem
  | .node _ _ _ c => c

/-- The spread `{ ...item, children: cs }` of the source: same node with the
`children` field replaced. -/
def TaxonomyItem.withChildren : TaxonomyItem → List TaxonomyItem → TaxonomyItem
  | .node l p d _, cs => .node l p d cs

/-- Modelled from the spec: `pathsEqual(a, b)` — true iff same length and
element-wise equal, in order (the source's `isArraysEqual` helper is imported
from `utils/utilities`, which is not among the provided files). -/
def isArraysEqual (a b : List String) : Bool :=
  a.length == b.length && (a.zip b).all fun q => q.1 == q.2

/-- From the source: `isSubArray(item, parent)` — item is a strict descendant
path of parent (parent is a proper leading subset of item). -/
def isSubArray (item parent : List String) : Bool :=
  if item.length ≤ parent.length then false
  else (parent.zip item).all fun q => q.2 == q.1

mutual
/-- From the source (`Taxonomy` component): the pre-order `flatten` walk —
`visitItem` pushes the node, then visits each child in order. -/
def flattenItem : TaxonomyItem → List TaxonomyItem
  | .node l p d cs => TaxonomyItem.node l p d cs :: flattenForest cs
def flattenForest : List TaxonomyItem → List TaxonomyItem
  | [] => []
  | t :: ts => flattenItem t ++ flattenForest ts
end

mutual
def countItem : TaxonomyItem → Nat
  | .node _ _ _ cs => 1 + countForest cs
def countForest : List TaxonomyItem → Nat
  | [] => 0
  | t :: ts => countItem t + countForest ts
end

mutual
/-- The actual depth of each node, listed in pre-order, computed from the
nesting structure alone (ignoring the stored `depth` field). -/
def depthListItem (d : Nat) : TaxonomyItem → List Nat
  | .node _ _ _ cs => d :: depthListForest (d + 1) cs
def depthListForest (d : Nat) : List TaxonomyItem → List Nat
  | [] => []
  | t :: ts => depthListItem d t ++ depthListForest d ts
end

mutual
/-- Well-formedness of the stored `depth` fields: each node's field equals its
actual nesting depth (the §3 invariant the caller must maintain). -/
def wfItem (d : Nat) : TaxonomyItem → Bool
  | .node _ _ dep cs => (dep == d) && wfForest (d + 1) cs
def wfForest (d : Nat) : List TaxonomyItem → Bool
  | [] => true
  | t :: ts => wfItem d t && wfForest d ts
end

/-- Modelled from the spec: pre-order traversal stated the spec's way —
"visit node, emit it, then recursively emit each child in original order,
before moving to the next sibling" — used to compare against the source's
`flatten`. -/
def preorderSpecForest : List TaxonomyItem → List TaxonomyItem
  | [] => []
  | TaxonomyItem.node l p d cs :: ts =>
    TaxonomyItem.node l p d cs :: (preorderSpecForest cs ++ preorderSpecForest ts)

/-- From the source: `setSelected` — the selection toggle.  `value = true`
appends the path; `value = false` filters out every path-equal element. -/
def setSelected (selected : List (List String)) (path : List String)
    (value : Bool) : List (List String) :=
  if value then selected ++ [path]
  else selected.filter fun current => !(isArraysEqual current path)

/-- From the source (`Item` renderer): `checked` — the path equals some
element of the selected set. -/
def isChecked (selected : List (List String)) (path : List String) : Bool :=
  selected.any fun current => isArraysEqual current path

/-- From the source (`Item` renderer): `isChildSelected` — some selected path
is a strict descendant of this path. -/
def isChildSelected (selected : List (List String)) (path : List String) : Bool :=
  selected.any fun current => isSubArray current path

/-- From the source (`setIndeterminate` ref callback): checked forces the
indeterminate flag off, otherwise it mirrors `isChildSelected`. -/
def isIndeterminate (selected : List (List String)) (path : List String) : Bool :=
  if isChecked selected path then false else isChildSelected selected path

/-- From the source (`optionsWithMaxUsages`):
`maxUsagesReached = options.maxUsages ? selected.length >= options.maxUsages : false`.
JavaScript truthiness of the optional number: `undefined` and `0` are falsy. -/
def optionsMaxUsagesReached (maxUsages : Option Nat) (selectedLength : Nat) : Bool :=
  match maxUsages with
  | some m => if m = 0 then false else decide (m ≤ selectedLength)
  | none => false

/-- From the source (`Item` renderer, lines 74–79): the `disabled` flag —
`(leafsOnly && hasChilds) || (maxUsagesReached && !checked)`. -/
def disabledFlag (leafsOnly maxUsagesReached : Bool)
    (selected : List (List String)) (item : TaxonomyItem) : Bool :=
  let checked := isChecked selected item.path
  let hasChilds := !item.children.isEmpty
  let onlyLeafsAllowed := leafsOnly && hasChilds
  let limitReached := maxUsagesReached && !checked
  onlyLeafsAllowed || limitReached

/-- A JavaScript array with holes: reading past the end or at a never-written
index yields `undefined` (`none` here). -/
def getHole (a : List (Option (List TaxonomyItem))) (i : Nat) :
    Option (List TaxonomyItem) :=
  a.getD i none

/-- Writing `a[i] = v` on a JavaScript array: indices between the old length
and `i` become holes. -/
def setHole (a : List (Option (List TaxonomyItem))) (i : Nat)
    (v : List TaxonomyItem) : List (Option (List TaxonomyItem)) :=
  if i < a.length then a.set i (some v)
  else a ++ List.replicate (i - a.length) none ++ [some v]

/-- The loop state of `filterTreeByPredicate`: the result roots, the per-depth
pending-children buffers (`childs`), and the closing-depth counter `d`
(initially `-1`). -/
structure FilterState where
  roots : List TaxonomyItem
  childs : List (Option (List TaxonomyItem))
  d : Int

/-- One iteration of the backward scan of `filterTreeByPredicate`, translated
line by line.  Returns `none` when the source would throw a TypeError
(`childs[d - 1].unshift(...)` with `childs[d - 1]` undefined). -/
def filterStep (predicate : TaxonomyItem → Bool) (st : FilterState)
    (item : TaxonomyItem) : Option FilterState :=
  if (item.depth : Int) = st.d then
    -- const adjusted = { ...item, children: childs[d] ?? [] };
    let adjusted := item.withChildren ((getHole st.childs item.depth).getD [])
    -- childs[d] = [];
    let childs1 := setHole st.childs item.depth []
    if item.depth = 0 then
      -- roots.unshift(adjusted); d--;
      some ⟨adjusted :: st.roots, childs1, st.d - 1⟩
    else
      -- childs[d - 1].unshift(adjusted); d--;   (throws if childs[d-1] undefined)
      match getHole childs1 (item.depth - 1) with
      | none => none
      | some l => some ⟨st.roots, setHole childs1 (item.depth - 1) (adjusted :: l), st.d - 1⟩
  else if predicate item then
    let adjusted := item.withChildren []
    if item.depth = 0 then
      some ⟨adjusted :: st.roots, st.childs, st.d⟩
    else
      -- d = item.depth - 1; if (!childs[d]) childs[d] = []; childs[d].unshift(adjusted);
      let d1 := item.depth - 1
      let cur := (getHole st.childs d1).getD []
      some ⟨st.roots, setHole st.childs d1 (adjusted :: cur), (d1 : Int)⟩
  else
    some st

/-- From the source: `filterTreeByPredicate` — the backward scan over the flat
sequence (`for (let i = flatten.length; i--; )`), returning the rebuilt
forest, or `none` where the original throws. -/
def filterTreeByPredicate (flat : List TaxonomyItem)
    (predicate : TaxonomyItem → Bool) : Option (List TaxonomyItem) :=
  (flat.reverse.foldlM (filterStep predicate) ⟨[], [], -1⟩).map FilterState.roots

/-! ## Concrete trees used by the witnesses, counterexamples and crash runs -/

/-- The spec's concrete scenario: tree `A > [A1, A2 > [A2a]]`. -/
def demoForest : List TaxonomyItem :=
  [TaxonomyItem.node "A" ["A"] 0
    [TaxonomyItem.node "A1" ["A", "A1"] 1 [],
     TaxonomyItem.node "A2" ["A", "A2"] 1
       [TaxonomyItem.node "A2a" ["A", "A2", "A2a"] 2 []]]]

/-- A well-formed single chain `B > B1 > B1a` (depths 0, 1, 2). -/
def chainB : List TaxonomyItem :=
  [TaxonomyItem.node "B" ["B"] 0
    [TaxonomyItem.node "B1" ["B", "B1"] 1
      [TaxonomyItem.node "B1a" ["B", "B1", "B1a"] 2 []]]]

/-- A well-formed single chain `C > C1 > C1a > C1a1` (depths 0, 1, 2, 3). -/
def chainC : List TaxonomyItem :=
  [TaxonomyItem.node "C" ["C"] 0
    [TaxonomyItem.node "C1" ["C", "C1"] 1
      [TaxonomyItem.node "C1a" ["C", "C1", "C1a"] 2
        [TaxonomyItem.node "C1a1" ["C", "C1", "C1a", "C1a1"] 3 []]]]]

/-- A second forest with a depth-1 match available: `X > [X1]`. -/
def xForest : List TaxonomyItem :=
  [TaxonomyItem.node "X" ["X"] 0 [TaxonomyItem.node "X1" ["X", "X1"] 1 []]]

/-- A two-level tree whose root matches a search: `top > [leaf]`. -/
def topForest : List TaxonomyItem :=
  [TaxonomyItem.node "top" ["top"] 0
    [TaxonomyItem.node "leaf" ["top", "leaf"] 1 []]]

/-- Sanity anchor: on a flat sequence where every closed level was initialised
by an earlier scanned match, the reconstructor succeeds and returns exactly
the matches plus their ancestor chains, in original sibling order. -/
example :
    filterTreeByPredicate (flattenForest (demoForest ++ xForest))
      (fun it => it.label == "A2a" || it.label == "X1") =
    some
      [TaxonomyItem.node "A" ["A"] 0
        [TaxonomyItem.node "A2" ["A", "A2"] 1
          [TaxonomyItem.node "A2a" ["A", "A2", "A2a"] 2 []]],
       TaxonomyItem.node "X" ["X"] 0 [TaxonomyItem.node "X1" ["X", "X1"] 1 []]] := rfl

/-- Sanity anchor: a depth-1 match keeps the matching node (with its
non-matching subtree pruned) and its root ancestor, and drops `A1`. -/
example :
    filterTreeByPredicate (flattenForest demoForest) (fun it => it.label == "A2") =
    some [TaxonomyItem.node "A" ["A"] 0 [TaxonomyItem.node "A2" ["A", "A2"] 1 []]] := rfl

/-! ## Path-equality helper lemmas -/

theorem isArraysEqual_eq_true_iff (a b : List String) :
    isArraysEqual a b = true ↔ a = b := by
  induction a generalizing b with
  | nil =>
    cases b <;> simp [isArraysEqual]
  | cons x xs ih =>
    cases b with
    | nil => simp [isArraysEqual]
    | cons y ys =>
      simp only [isArraysEqual, List.zip_cons_cons, List.all_cons, List.length_cons,
        Bool.and_eq_true, beq_iff_eq, Nat.add_right_cancel_iff] at *
      constructor
      · rintro ⟨hlen, hxy, hall⟩
        rw [hxy, (ih ys).mp ⟨hlen, hall⟩]
      · intro h
        injection h with h1 h2
        subst h1
        subst h2
        exact ⟨rfl, rfl, ((ih xs).mpr rfl).2⟩

theorem isArraysEqual_self (p : List String) : isArraysEqual p p = true :=
  (isArraysEqual_eq_true_iff p p).mpr rfl

/-! ## Selection model: toggle, checked, indeterminate -/

/-- C4 (counterexample): starting from the empty selected set, toggling the
same path on twice leaves the list with two path-equal entries — `setSelected`
appends unconditionally, so the "no two path-equal elements after any sequence
of toggle operations" part of the claim fails. -/
theorem taxonomy_C4_counterexample :
    setSelected (setSelected [] ["A"] true) ["A"] true = [["A"], ["A"]] ∧
    isArraysEqual ["A"] ["A"] = true :=
  ⟨rfl, rfl⟩

/-- C4 (amended): toggling a path on twice yields the same elements, as a set
of paths, as toggling it on once — membership in the selected list is
unchanged by the second append — even though the underlying list gains a
duplicate entry. -/
theorem taxonomy_C4_amended (s : List (List String)) (p q : List String) :
    q ∈ setSelected (setSelected s p true) p true ↔ q ∈ setSelected s p true := by
  simp only [setSelected, if_pos, List.mem_append, List.mem_singleton]
  tauto

/-- C6: toggling a path on and then off yields exactly the original set with
every element path-equal to `p` removed — both as lists (first conjunct) and
as sets of paths (second conjunct) — whether or not `p` was present before. -/
theorem taxonomy_C6_inverse (s : List (List String)) (p : List String) :
    setSelected (setSelected s p true) p false =
      s.filter (fun c => !(isArraysEqual c p)) ∧
    ∀ q, q ∈ setSelected (setSelected s p true) p false ↔
      (q ∈ s ∧ isArraysEqual q p = false) := by
  have hmain : setSelected (setSelected s p true) p false =
      s.filter (fun c => !(isArraysEqual c p)) := by
    simp [setSelected, List.filter_append, isArraysEqual_self]
  refine ⟨hmain, fun q => ?_⟩
  rw [hmain]
  simp [List.mem_filter]

/-- C7: `checked` and `indeterminate` are never both true — the ref callback
clears the indeterminate flag whenever the node is checked, so a node that is
itself selected is never indeterminate.  The second conjunct characterises
the indeterminate flag: not checked, and some selected path is a strict
descendant. -/
theorem taxonomy_C7_exclusive (s : List (List String)) (p : List String) :
    (isChecked s p && isIndeterminate s p) = false ∧
    isIndeterminate s p = (!isChecked s p && isChildSelected s p) := by
  cases h : isChecked s p <;> simp [isIndeterminate, h]

/-! ## Options resolver: maxUsagesReached -/

/-- C8: the derived `maxUsagesReached` flag is true exactly when `maxUsages`
is supplied and truthy (nonzero) and the selected set has reached it; in
particular for `maxUsages = 2` it is true at size 2 and false at size 1, and
it is false whenever `maxUsages` is absent. -/
theorem taxonomy_C8_maxUsages (mu : Option Nat) (len : Nat) :
    (optionsMaxUsagesReached mu len = true ↔
      ∃ m, mu = some m ∧ 0 < m ∧ m ≤ len) ∧
    optionsMaxUsagesReached none len = false ∧
    optionsMaxUsagesReached (some 2) 2 = true ∧
    optionsMaxUsagesReached (some 2) 1 = false := by
  refine ⟨?_, rfl, by decide, by decide⟩
  cases mu with
  | none => simp [optionsMaxUsagesReached]
  | some m =>
    by_cases hm : m = 0
    · subst hm
      simp [optionsMaxUsagesReached]
    · simp [optionsMaxUsagesReached, hm, Nat.pos_of_ne_zero hm]

/-- C10: a `maxUsages` of 0 is falsy, so the cap is never considered reached:
the flag is false for every selected-set size, and the `disabled` flag then
reduces to the `leafsOnly` part alone — the cap never disables any node. -/
theorem taxonomy_C10_zero_cap (len : Nat) (sel : List (List String))
    (lo : Bool) (it : TaxonomyItem) :
    optionsMaxUsagesReached (some 0) len = false ∧
    disabledFlag lo (optionsMaxUsagesReached (some 0) sel.length) sel it =
      (lo && !it.children.isEmpty) := by
  refine ⟨rfl, ?_⟩
  simp [disabledFlag, optionsMaxUsagesReached]

/-! ## Flatten correctness -/

theorem flattenForest_length : ∀ ts : List TaxonomyItem,
    (flattenForest ts).length = countForest ts
  | [] => rfl
  | TaxonomyItem.node l p d cs :: ts => by
    simp [flattenForest, flattenItem, countForest, countItem,
      flattenForest_length cs, flattenForest_length ts, Nat.add_comm,
      Nat.add_assoc, Nat.add_left_comm]

theorem flattenForest_eq_preorderSpec : ∀ ts : List TaxonomyItem,
    flattenForest ts = preorderSpecForest ts
  | [] => by simp [flattenForest, preorderSpecForest]
  | TaxonomyItem.node l p d cs :: ts => by
    simp [flattenForest, flattenItem, preorderSpecForest,
      flattenForest_eq_preorderSpec cs, flattenForest_eq_preorderSpec ts]

theorem flattenForest_map_depth : ∀ (d : Nat) (ts : List TaxonomyItem),
    wfForest d ts = true →
    (flattenForest ts).map TaxonomyItem.depth = depthListForest d ts
  | _, [], _ => rfl
  | d, TaxonomyItem.node l p dep cs :: ts, h => by
    have hsplit : wfItem d (TaxonomyItem.node l p dep cs) = true ∧
        wfForest d ts = true := by
      simpa [wfForest, Bool.and_eq_true] using h
    have hitem : dep = d ∧ wfForest (d + 1) cs = true := by
      simpa [wfItem, Bool.and_eq_true] using hsplit.1
    simp [flattenForest, flattenItem, depthListForest, depthListItem,
      TaxonomyItem.depth, hitem.1,
      flattenForest_map_depth (d + 1) cs hitem.2,
      flattenForest_map_depth d ts hsplit.2]

/-- C5: `flatten` is correct — its output has exactly one entry per node of
the tree, the entries are in the spec's pre-order (node first, then its
children in original order, then the next sibling), and on a tree whose
stored depth fields are consistent every entry's `depth` equals the node's
actual depth in the source tree. -/
theorem taxonomy_C5_flatten_correct (ts : List TaxonomyItem)
    (h : wfForest 0 ts = true) :
    (flattenForest ts).length = countForest ts ∧
    flattenForest ts = preorderSpecForest ts ∧
    (flattenForest ts).map TaxonomyItem.depth = depthListForest 0 ts :=
  ⟨flattenForest_length ts, flattenForest_eq_preorderSpec ts,
    flattenForest_map_depth 0 ts h⟩

/-- C5 witness: the flatten-correctness theorem instantiated on the spec's
concrete tree `A > [A1, A2 > [A2a]]`. -/
theorem taxonomy_C5_flatten_correct_witness :
    wfForest 0 demoForest = true ∧
    ((flattenForest demoForest).length = countForest demoForest ∧
     flattenForest demoForest = preorderSpecForest demoForest ∧
     (flattenForest demoForest).map TaxonomyItem.depth =
       depthListForest 0 demoForest) :=
  ⟨by decide, taxonomy_C5_flatten_correct demoForest (by decide)⟩

/-! ## The reconstructor's uninitialised-buffer crash

`filterTreeByPredicate` only initialises the pending-children buffer
`childs[depth - 1]` when a *matched* node at `depth` is processed.  Closing a
subtree boundary at depth `d ≥ 1` performs `childs[d - 1].unshift(...)`
without a check, so whenever the backward scan closes a level whose buffer
was never written — e.g. any match at depth ≥ 2 whose ancestor levels carry
no earlier-scanned match — the original code throws
`TypeError: cannot read properties of undefined`, modelled here as `none`. -/

/-- C1: on the well-formed chain `B > B1 > B1a` with the predicate matching
`B1a` (depth 2), the reconstructor does not return a forest at all: closing
the boundary at `B1` reads the never-initialised `childs[0]`, so the run
aborts (`none`) instead of producing `B > B1 > B1a`. -/
theorem taxonomy_C1_crash :
    wfForest 0 chainB = true ∧
    filterTreeByPredicate (flattenForest chainB)
      (fun it => it.label == "B1a") = none :=
  ⟨by decide, rfl⟩

/-- C2: the spec's own concrete scenario — tree `A > [A1, A2 > [A2a]]`,
predicate matching exactly the label `A2a` — crashes instead of returning
`[A > [A2 > [A2a]]]`: when the scan closes the subtree at `A2` (depth 1) it
dereferences the undefined `childs[0]`. -/
theorem taxonomy_C2_crash :
    wfForest 0 demoForest = true ∧
    filterTreeByPredicate (flattenForest demoForest)
      (fun it => it.label == "A2a") = none :=
  ⟨by decide, rfl⟩

/-- C3: the claimed totality fails — on the well-formed chain
`C > C1 > C1a > C1a1` with the predicate matching `C1a1` (depth 3), the
subtree-boundary branch reads `childs[d - 1]` (= `childs[1]`) at a moment
when it is not a defined list, so the operation aborts rather than
completing. -/
theorem taxonomy_C3_undefined_access :
    wfForest 0 chainC = true ∧
    filterTreeByPredicate (flattenForest chainC)
      (fun it => it.label == "C1a1") = none :=
  ⟨by decide, rfl⟩

/-! ## leafsOnly and the toggle reachability model -/

/-- A node as the `Item` renderer can receive it: either a node of the
supplied tree (the full view renders exactly the nodes listed by `flatten`),
or a node of a reconstructed forest that `filterTreeByPredicate` returned for
some search predicate (the filtered view). -/
def RenderedItem (tree : List TaxonomyItem) (it : TaxonomyItem) : Prop :=
  it ∈ flattenForest tree ∨
  ∃ (pred : TaxonomyItem → Bool) (out : List TaxonomyItem),
    filterTreeByPredicate (flattenForest tree) pred = some out ∧
    it ∈ flattenForest out

/-- Selection states reachable through the component's toggle operations: the
checkbox of a rendered, non-disabled, currently unchecked item can report
`checked = true`, and any path can be toggled off (unchecking, or the remove
button of the selected list).  `maxUsagesReached` is recomputed from the
current selected length, as `optionsWithMaxUsages` does. -/
inductive ReachableUI (tree : List TaxonomyItem) (lo : Bool) (mu : Option Nat) :
    List (List String) → Prop where
  | init : ReachableUI tree lo mu []
  | toggleOn (s : List (List String)) (it : TaxonomyItem)
      (hrend : RenderedItem tree it)
      (hen : disabledFlag lo (optionsMaxUsagesReached mu s.length) s it = false)
      (hch : isChecked s it.path = false)
      (hs : ReachableUI tree lo mu s) :
      ReachableUI tree lo mu (setSelected s it.path true)
  | toggleOff (s : List (List String)) (p : List String)
      (hs : ReachableUI tree lo mu s) :
      ReachableUI tree lo mu (setSelected s p false)

/-- C9 (counterexample): with `leafsOnly` on, over the tree `top > [leaf]`,
the selected set `[["top"]]` is reachable — searching for `"top"` renders the
matched root as a clone with empty children, whose checkbox is therefore not
disabled — yet the source node with path `["top"]` has children, so a
non-leaf path of the source tree enters the selected set. -/
theorem taxonomy_C9_counterexample :
    ReachableUI topForest true none [["top"]] ∧
    TaxonomyItem.node "top" ["top"] 0
      [TaxonomyItem.node "leaf" ["top", "leaf"] 1 []] ∈ flattenForest topForest ∧
    (TaxonomyItem.node "top" ["top"] 0
      [TaxonomyItem.node "leaf" ["top", "leaf"] 1 []]).children.isEmpty = false := by
  refine ⟨?_, ?_, rfl⟩
  · have h := @ReachableUI.toggleOn topForest true none
      [] (TaxonomyItem.node "top" ["top"] 0 [])
      (Or.inr ⟨fun it => it.label == "top", [TaxonomyItem.node "top" ["top"] 0 []],
        rfl, by simp [flattenForest, flattenItem]⟩)
      rfl rfl ReachableUI.init
    exact h
  · simp [topForest, flattenForest, flattenItem]

/-- C9 (amended): under `leafsOnly` the disabled flag is exactly "the item has
children as rendered, or the usage cap bites on an unchecked item", so every
node rendered with children is disabled, and every path that enters the
selected set through the toggles comes from an item that was rendered without
children.  "Leaf" is relative to the rendered view: as the counterexample
shows, search filtering clones a matched non-leaf with empty children, so a
path whose source node has children can still enter the set. -/
theorem taxonomy_C9_amended (tree : List TaxonomyItem) (mu : Option Nat)
    (s : List (List String)) (hr : ReachableUI tree true mu s) :
    (∀ (mur : Bool) (sel : List (List String)) (it : TaxonomyItem),
      disabledFlag true mur sel it =
        (!it.children.isEmpty || (mur && !(isChecked sel it.path)))) ∧
    ∀ p ∈ s, ∃ it, RenderedItem tree it ∧ it.path = p ∧ it.children = [] := by
  constructor
  · intro mur sel it
    simp [disabledFlag]
  · induction hr with
    | init =>
      intro p hp
      simp at hp
    | toggleOn s it hrend hen hch hs ih =>
      intro p hp
      simp only [setSelected, if_pos, List.mem_append, List.mem_singleton] at hp
      rcases hp with hp | hp
      · exact ih p hp
      · subst hp
        have hleaf : it.children = [] := by
          simp only [disabledFlag, Bool.or_eq_false_iff, Bool.and_eq_false_iff] at hen
          rcases hen.1 with h | h
          · cases h
          · simpa [List.isEmpty_iff] using h
        exact ⟨it, hrend, rfl, hleaf⟩
    | toggleOff s p hs ih =>
      intro q hq
      exact ih q (List.mem_of_mem_filter hq)

/-- C9 witness: over `top > [leaf]` the state `[["top", "leaf"]]` is reachable
by checking the actual leaf in the full view, and the amended theorem applied
there produces the rendered leaf item behind that path. -/
theorem taxonomy_C9_amended_witness :
    ReachableUI topForest true none [["top", "leaf"]] ∧
    ∃ it, RenderedItem topForest it ∧ it.path = ["top", "leaf"] ∧
      it.children = [] := by
  have hr : ReachableUI topForest true none [["top", "leaf"]] := by
    have h := @ReachableUI.toggleOn topForest true none
      [] (TaxonomyItem.node "leaf" ["top", "leaf"] 1 [])
      (Or.inl (by simp [topForest, flattenForest, flattenItem]))
      rfl rfl ReachableUI.init
    exact h
  exact ⟨hr, (taxonomy_C9_amended topForest none [["top", "leaf"]] hr).2
    ["top", "leaf"] (by simp)⟩
